import Mathlib

/-!
Verification development for the `igm` ModelingStep stage
(`src/igm/steps/ModelingStep.py`).

The Python source is shallowly embedded: numeric values are `ℚ` (Python
ints/floats from the JSON statistics records are exact small rationals here),
JSON values parsed by `json.loads` are the inductive `J`, numpy arrays are
`List ℚ`, and Python exceptions are the `PyErr` error type threaded through
each operation.  Stateful methods become explicit functions on a session
state; external I/O calls that can raise (HDF5 writes, subprocesses) are
parametrized by oracles recording whether the call succeeds.
-/

namespace IGM

/-- Source line 26: `DEFAULT_HIST_BINS = 100`. -/
def DEFAULT_HIST_BINS : ℕ := 100

/-- Source line 27: `DEFAULT_HIST_MAX = 0.1`. -/
def DEFAULT_HIST_MAX : ℚ := 1 / 10

/-- A parsed JSON value, as returned by `json.loads`. -/
inductive J where
  | num (q : ℚ)
  | str (s : String)
  | jbool (b : Bool)
  | null
  | arr (l : List J)
  | obj (l : List (String × J))

/-- Python exceptions that the embedded operations can raise. -/
inductive PyErr where
  | keyError
  | attrError
  | typeError
  | valueError
  | indexError
  | runtimeError
  | osError
deriving DecidableEq, Repr

/-- Python `d.get(k, default)`: raises `AttributeError` when the receiver is
not a dict (the source calls it on untrusted parsed JSON). -/
def J.pyGet (j : J) (k : String) (d : J) : Except PyErr J :=
  match j with
  | .obj l => .ok (((l.find? (fun p => p.1 == k)).map Prod.snd).getD d)
  | _ => .error .attrError

/-- Python `d[k]` subscription: `KeyError` when the key is absent,
`TypeError` when the receiver is not a dict. -/
def J.pySub (j : J) (k : String) : Except PyErr J :=
  match j with
  | .obj l =>
    match l.find? (fun p => p.1 == k) with
    | some p => .ok p.2
    | none => .error .keyError
  | _ => .error .typeError

/-- Using a JSON value as a number (the `+=` in `set_structure` needs a
numeric operand, otherwise Python raises `TypeError`). -/
def J.toNum : J → Except PyErr ℚ
  | .num q => .ok q
  | _ => .error .typeError

/-- Interpreting a list of JSON values as a numeric vector. -/
def toNumListCore : List J → Except PyErr (List ℚ)
  | [] => .ok []
  | x :: xs => do
    let q ← x.toNum
    let rest ← toNumListCore xs
    .ok (q :: rest)

/-- Interpreting a JSON value as a numeric array (what numpy requires of
`cstat['histogram']['counts']` before adding it to an accumulator). -/
def J.toNumList : J → Except PyErr (List ℚ)
  | .arr l => toNumListCore l
  | _ => .error .typeError

/-- numpy element-wise `a += b`: the shapes must match, or `b` must be a
1-element array (broadcast); anything else raises `ValueError`. -/
def npAdd (a b : List ℚ) : Except PyErr (List ℚ) :=
  if b.length = a.length then .ok (List.zipWith (· + ·) a b)
  else if b.length = 1 then .ok (a.map (· + b.headI))
  else .error .valueError

/-- `n_tot += cstat.get('n_imposed', 0)` (source lines 313-314): dict get
with default `0`, then numeric use. -/
def pyGetNum (cstat : J) (k : String) : Except PyErr ℚ :=
  (cstat.pyGet k (.num 0)).bind J.toNum

/-- `cstat['histogram']['counts']` as a numeric array (source line 315). -/
def getHistCounts (cstat : J) : Except PyErr (List ℚ) :=
  (cstat.pySub "histogram").bind fun h => (h.pySub "counts").bind J.toNumList

/-- One per-restraint aggregation bucket of the running summary
(source lines 305-311), and also the typed shape of one per-restraint
violation-statistics record produced by `task` (lines 235-242). -/
structure RBucket where
  counts : List ℚ
  n_violations : ℚ
  n_imposed : ℚ
deriving DecidableEq, Repr

/-- The zero-initialized bucket installed on first sight of a restraint key
(source lines 305-311). -/
def emptyBucket : RBucket :=
  ⟨List.replicate (DEFAULT_HIST_BINS + 1) 0, 0, 0⟩

/-- The `bystructure` part of the running summary (source lines 272-279). -/
structure ByStructure where
  n_imposed : List ℚ
  n_violations : List ℚ
  total_energies : List ℚ
  pair_energies : List ℚ
  bond_energies : List ℚ
  thermo : List (String × List ℚ)
deriving DecidableEq, Repr

/-- The running summary `self._summary_data` (source lines 265-281). -/
structure SummaryData where
  n_imposed : ℚ
  n_violations : ℚ
  hist_counts : List ℚ
  hist_edges : List (Option ℚ)
  bystructure : ByStructure
  byrestraint : List (String × RBucket)
deriving DecidableEq, Repr

/-- The shared store (`HssFile` handle `self._hss`): per-member coordinate
slots, the scalar violation score, and the serialized summary blob.
`none` in `hist_edges`/`violation`/`summary` models absence; the edge entry
`none` models `np.inf`. -/
structure StoreState where
  isOpen : Bool
  nstruct : ℕ
  crds : List (ℕ × List ℚ)
  violation : Option ℚ
  summary : Option SummaryData
deriving DecidableEq, Repr

/-- The state owned by one poller session: the open store handle plus the
process-local running summary. -/
structure SessionState where
  store : StoreState
  summary : SummaryData
deriving DecidableEq, Repr

/-- `setup_poller` (source lines 261-281): opens the shared store in
read-write mode and allocates the zero-initialized running summary sized to
`population_size = N`.  The histogram edge list mirrors
`np.arange(0, DEFAULT_HIST_MAX, DEFAULT_HIST_MAX / DEFAULT_HIST_BINS).tolist()
 + [DEFAULT_HIST_MAX, np.inf]` (line 270). -/
def setup_poller (N : ℕ) (st : StoreState) : SessionState :=
  { store := { st with isOpen := true },
    summary :=
      { n_imposed := 0
        n_violations := 0
        hist_counts := List.replicate (DEFAULT_HIST_BINS + 1) 0
        hist_edges :=
          ((List.range DEFAULT_HIST_BINS).map
            (fun j : ℕ => some ((j : ℚ) * (DEFAULT_HIST_MAX / (DEFAULT_HIST_BINS : ℚ)))))
            ++ [some DEFAULT_HIST_MAX, none]
        bystructure :=
          { n_imposed := List.replicate N 0
            n_violations := List.replicate N 0
            total_energies := List.replicate N 0
            pair_energies := List.replicate N 0
            bond_energies := List.replicate N 0
            thermo := [] }
        byrestraint := [] } }

/-- The data `set_structure` reads from one member's `.hms` result file.
`vstat_raw` is the parsed `violation_stats` JSON when the dataset exists and
`json.loads` succeeds, `none` when reading or parsing raised (the bare
`except:` at source lines 295-298 catches exactly that region).  The energy
fields are the `opt_info` datasets when present (a missing key raises
`KeyError`, caught at lines 327-332), and `thermo` is
`json.loads(hms['opt_info_dict'])['thermo']` when `opt_info_dict` exists. -/
structure HmsData where
  crd : List ℚ
  vstat_raw : Option J
  e_total : Option ℚ
  e_pair : Option ℚ
  e_bond : Option ℚ
  thermo : Option (List (String × ℚ))

/-- Local loop state of the `for k, cstat in vstat.items()` loop of
`set_structure` (source lines 300-318): the (shared) `byrestraint` dict and
the local accumulators `n_tot`, `n_vio`, `hist_tot`. -/
structure LoopSt where
  byr : List (String × RBucket)
  n_tot : ℚ
  n_vio : ℚ
  hist_tot : List ℚ

/-- Lookup of an existing bucket in the `byrestraint` association list. -/
def lookupAssoc (l : List (String × RBucket)) (k : String) : RBucket :=
  ((l.find? (fun p => p.1 == k)).map Prod.snd).getD emptyBucket

/-- In-place update of the bucket stored under key `k`. -/
def updateAssoc (l : List (String × RBucket)) (k : String)
    (f : RBucket → RBucket) : List (String × RBucket) :=
  l.map (fun p => if p.1 == k then (p.1, f p.2) else p)

/-- The statistics loop of `set_structure` (source lines 303-318), with
Python exception semantics: the first failing operation aborts the loop;
mutations already applied to the shared `byrestraint` dict survive, while
the local accumulators are discarded by the caller on error. -/
def vstatLoop : List (String × J) → LoopSt → LoopSt × Option PyErr
  | [], st => (st, none)
  | (k, cstat) :: rest, st =>
    let byr1 :=
      if (st.byr.find? (fun p => p.1 == k)).isSome then st.byr
      else st.byr ++ [(k, emptyBucket)]
    let st1 : LoopSt := { st with byr := byr1 }
    match pyGetNum cstat "n_imposed" with
    | .error e => (st1, some e)
    | .ok q1 =>
      match pyGetNum cstat "n_violations" with
      | .error e => (st1, some e)
      | .ok q2 =>
        match getHistCounts cstat with
        | .error e => (st1, some e)
        | .ok cl =>
          match npAdd st.hist_tot cl with
          | .error e => (st1, some e)
          | .ok hist1 =>
            match npAdd (lookupAssoc byr1 k).counts cl with
            | .error e =>
              ({ st1 with
                  byr := updateAssoc byr1 k (fun b =>
                    { b with
                        n_violations := b.n_violations + q2
                        n_imposed := b.n_imposed + q1 }) }, some e)
            | .ok bc =>
              vstatLoop rest
                { byr := updateAssoc byr1 k (fun b =>
                    { counts := bc
                      n_violations := b.n_violations + q2
                      n_imposed := b.n_imposed + q1 })
                  n_tot := st.n_tot + q1
                  n_vio := st.n_vio + q2
                  hist_tot := hist1 }

/-- The energy recording of `set_structure` (source lines 327-332): three
assignments inside one `try/except KeyError`, so a missing key skips all
remaining assignments but keeps the ones already made. -/
def applyEnergies (i : ℕ) (h : HmsData) (b : ByStructure) : ByStructure :=
  match h.e_total with
  | none => b
  | some v1 =>
    let b1 := { b with total_energies := b.total_energies.set i v1 }
    match h.e_pair with
    | none => b1
    | some v2 =>
      let b2 := { b1 with pair_energies := b1.pair_energies.set i v2 }
      match h.e_bond with
      | none => b2
      | some v3 => { b2 with bond_energies := b2.bond_energies.set i v3 }

/-- The thermo recording of `set_structure` (source lines 335-340): for each
named trace, lazily allocate a zero array of length `nstruct` and record
this member's value. -/
def thermoLoop (i nstruct : ℕ) :
    List (String × ℚ) → List (String × List ℚ) → List (String × List ℚ)
  | [], t => t
  | (k, v) :: rest, t =>
    let t1 :=
      if (t.find? (fun p => p.1 == k)).isSome then t
      else t ++ [(k, List.replicate nstruct 0)]
    thermoLoop i nstruct rest
      (t1.map (fun p => if p.1 == k then (p.1, p.2.set i v) else p))

/-- Python `.items()` on a parsed JSON value: raises `AttributeError` when
the value is not a dict (source line 303 iterates the parse result without
checking its shape). -/
def J.items : J → Except PyErr (List (String × J))
  | .obj l => .ok l
  | _ => .error .attrError

/-- The summary-mutating part of `set_structure` (source lines 294-340):
parse the violation-statistics record (absent/unparseable becomes the empty
dict, line 298), run the statistics loop, fold the local accumulators into
the global counters (lines 320-322), record the per-member counts into the
`bystructure` arrays with numpy bounds semantics (lines 323-324), then the
energies and thermo traces. -/
def aggregateStats (i : ℕ) (hms : HmsData) (nstruct : ℕ) (s : SummaryData) :
    SummaryData × Option PyErr :=
  let vstat := hms.vstat_raw.getD (.obj [])
  match vstat.items with
  | .error e => (s, some e)
  | .ok its =>
    match vstatLoop its ⟨s.byrestraint, 0, 0, List.replicate (DEFAULT_HIST_BINS + 1) 0⟩ with
    | (lst, some e) => ({ s with byrestraint := lst.byr }, some e)
    | (lst, none) =>
      let s1 := { s with
        byrestraint := lst.byr
        n_imposed := s.n_imposed + lst.n_tot
        n_violations := s.n_violations + lst.n_vio }
      match npAdd s1.hist_counts lst.hist_tot with
      | .error e => (s1, some e)
      | .ok hc =>
        let s2 := { s1 with hist_counts := hc }
        if i < s2.bystructure.n_imposed.length then
          let s3 := { s2 with
            bystructure := { s2.bystructure with
              n_imposed := s2.bystructure.n_imposed.set i lst.n_tot } }
          if i < s3.bystructure.n_violations.length then
            let s4 := { s3 with
              bystructure := { s3.bystructure with
                n_violations := s3.bystructure.n_violations.set i lst.n_vio } }
            let s5 := { s4 with bystructure := applyEnergies i hms s4.bystructure }
            match hms.thermo with
            | none => (s5, none)
            | some th =>
              ({ s5 with bystructure := { s5.bystructure with
                  thermo := thermoLoop i nstruct th s5.bystructure.thermo } }, none)
          else (s3, some .indexError)
        else (s2, some .indexError)

/-- `set_structure(i)` (source lines 284-340): writes the member's
coordinates into its slot of the shared store (line 292), then merges the
member's statistics into the running summary.  The store handle itself is
never touched beyond the coordinate write. -/
def set_structure (i : ℕ) (hms : HmsData) (s : SessionState) :
    SessionState × Option PyErr :=
  let store1 := { s.store with
    crds :=
      if (s.store.crds.find? (fun p => p.1 == i)).isSome then
        s.store.crds.map (fun p => if p.1 == i then (i, hms.crd) else p)
      else s.store.crds ++ [(i, hms.crd)] }
  let r := aggregateStats i hms s.store.nstruct s.summary
  ({ store := store1, summary := r.1 }, r.2)

/-- Oracle for the two external store writes performed by
`teardown_poller`: whether `self._hss.set_violation(...)` and the summary
dataset write succeed (an HDF5 write can raise `OSError`). -/
structure ExtWrites where
  set_violation_ok : Bool
  write_summary_ok : Bool
deriving DecidableEq, Repr

/-- `teardown_poller` (source lines 342-352): computes the guarded
violation score, writes it to the store, serializes the running summary
into the store, and finally closes the handle.  There is no `try/finally`:
an exception in either write leaves the handle open. -/
def teardown_poller (ext : ExtWrites) (s : SessionState) :
    SessionState × Option PyErr :=
  let violation_score :=
    if s.summary.n_imposed = 0 then 0
    else s.summary.n_violations / s.summary.n_imposed
  if ext.set_violation_ok = false then (s, some .osError)
  else
    let s1 := { s with store := { s.store with violation := some violation_score } }
    if ext.write_summary_ok = false then (s1, some .osError)
    else
      let s2 := { s1 with store := { s1.store with summary := some s1.summary } }
      ({ s2 with store := { s2.store with isOpen := false } }, none)

/-- The callback sequence of one poller session: each observed completion
drives one `set_structure` invocation; a raised exception aborts the
session. -/
def runCallbacks : List (ℕ × HmsData) → SessionState → SessionState × Option PyErr
  | [], s => (s, none)
  | (i, h) :: rest, s =>
    match set_structure i h s with
    | (s1, some e) => (s1, some e)
    | (s1, none) => runCallbacks rest s1

/-- One whole poller session: `setup_poller`, one callback per completion,
then `teardown_poller` (the `FilePoller` contract runs them in this order
in one execution context). -/
def runSession (N : ℕ) (st : StoreState) (cbs : List (ℕ × HmsData))
    (ext : ExtWrites) : SessionState × Option PyErr :=
  match runCallbacks cbs (setup_poller N st) with
  | (s, some e) => (s, some e)
  | (s, none) => teardown_poller ext s

/-! ### Task runner model (`ModelingStep.task`, source lines 106-259)

The heavy model assembly and the external minimizer are opaque here: what
the claims are about is the control flow around the completion marker.  The
computed coordinates are the `crd` parameter; `readBack` is what rereading
the freshly written result file yields (equal to `crd` unless the storage
corrupted the write). -/

/-- The per-member files `task` can touch: the `.hms` result file and the
`.ready` completion marker. -/
structure TaskFS where
  resultFile : Option (List ℚ)
  marker : Bool
deriving DecidableEq, Repr

/-- Externally visible effects of one `task` invocation, in order. -/
inductive TaskEffect where
  | writeResult (crd : List ℚ)
  | createMarker
deriving DecidableEq, Repr

/-- `task` (source lines 106-259), reduced to its file-effect skeleton:
lines 121-123 skip when the marker exists and `optimization/clean_restart`
is off; otherwise the result file is written (lines 216-251), read back and
compared (lines 253-256, raising `RuntimeError` on mismatch), and the
marker is touched as the final step (lines 258-259). -/
def task (clean_restart : Bool) (crd readBack : List ℚ) (fs : TaskFS) :
    TaskFS × List TaskEffect × Option PyErr :=
  if clean_restart = false ∧ fs.marker then (fs, [], none)
  else
    let fs1 := { fs with resultFile := some crd }
    if readBack = crd then
      ({ fs1 with marker := true }, [.writeResult crd, .createMarker], none)
    else
      (fs1, [.writeResult crd], some .runtimeError)

/-! ### Reduce / repack model (`ModelingStep.reduce`, source lines 354-400) -/

/-- The files the repack portion of `reduce` touches: the working store
`hssfilename` (the `.T` file, fed to `h5repack -i`), the temporary
`hssfilename + '.swap'` output, the optional intermediate snapshot, and the
final `optimization/structure_output` target of the `shutil.move`.
Contents are opaque blobs, identified by a natural number. -/
structure ReduceFS where
  origStore : ℕ
  swapFile : Option ℕ
  intermediate : Option ℕ
  finalOutput : Option ℕ
deriving DecidableEq, Repr

/-- The chunk-size computation of `reduce` (source lines 371-373):
`pack_beads = min(max(1, int(PACK_SIZE / n_struct / 3)), n_beads)` with
`PACK_SIZE = 1e6` (integer truncation of the positive quotient). -/
def pack_beads (n_struct n_beads : ℕ) : ℕ :=
  min (max 1 (1000000 / n_struct / 3)) n_beads

/-- The repack portion of `reduce` (source lines 374-400): the `h5repack`
subprocess reads the original store and writes `repacked` to the swap path;
a non-zero `returncode` raises `RuntimeError` (line 389); on success the
optional intermediate copy is taken (lines 393-397) and the swap file is
moved onto the final output path (line 400). -/
def reduce (repacked : ℕ) (returncode : ℤ) (keep_intermediate : Bool)
    (fs : ReduceFS) : ReduceFS × Option PyErr :=
  let fs1 := { fs with swapFile := some repacked }
  if returncode ≠ 0 then (fs1, some .runtimeError)
  else
    let fs2 :=
      if keep_intermediate then { fs1 with intermediate := some repacked } else fs1
    ({ fs2 with finalOutput := some repacked, swapFile := none }, none)

/-! ### Completion poller model

Modelled from the spec: the `FilePoller` class (imported from
`igm.parallel.async_file_operations`, source line 20) is not under `src/`;
only its caller `_run_poller` (source lines 67-80) is.  Spec section 4.2:
the poller repeatedly scans the outstanding marker set; for each expected
marker found present and not yet consumed it invokes the callback with that
marker's arguments and marks it consumed; markers already present at start
are delivered through the same path. -/

/-- Modelled from the spec: one polling scan.  `expected` is the fixed
marker list the poller was created with (`_run_poller` passes member ids
`range(population_size)`), `present` the markers existing on disk during
this scan, `consumed` the already-delivered ids in delivery order.  Each
present, not-yet-consumed expected id is delivered (appended). -/
def pollScan (expected present consumed : List ℕ) : List ℕ :=
  expected.foldl (fun c i => if i ∈ present ∧ i ∉ c then c ++ [i] else c) consumed

/-- Modelled from the spec: a whole polling session over a sequence of
scans; the returned list is the callback invocation sequence. -/
def pollRun (expected : List ℕ) (scans : List (List ℕ)) : List ℕ :=
  scans.foldl (fun c present => pollScan expected present c) []

/-! ### Violation histogram (`get_violation_histogram`, source lines 437-444) -/

/-- Bin edge `j` of a uniform `nbins`-bin histogram over `[0, vmax]`, as
produced by `np.histogram(..., bins=nbins, range=(0, vmax))`. -/
def edge (nbins : ℕ) (vmax : ℚ) (j : ℕ) : ℚ :=
  (j : ℚ) * vmax / (nbins : ℚ)

/-- Membership of a value in interior bin `j` under numpy histogram
semantics: bins are right-open except the last, which includes `vmax`. -/
def inBin (nbins : ℕ) (vmax : ℚ) (j : ℕ) (x : ℚ) : Bool :=
  decide (edge nbins vmax j ≤ x) &&
    (if j + 1 = nbins then decide (x ≤ vmax) else decide (x < edge nbins vmax (j + 1)))

/-- `np.histogram(xs, bins=nbins, range=(0, vmax))[0]`: per-bin counts;
values outside `[0, vmax]` fall in no bin and are dropped. -/
def np_histogram_counts (xs : List ℚ) (nbins : ℕ) (vmax : ℚ) : List ℕ :=
  (List.range nbins).map (fun j => xs.countP (inBin nbins vmax j))

/-- `get_violation_histogram` (source lines 437-444): counts the ratios
above `vmax` (`over`), histograms the remaining ones (`inner = v[v <= vmax]`)
over `[0, vmax]`, appends the overflow count to the counts and `np.inf`
(modelled as `none`) to the edges.  The defaults mirror the source
signature: `nbins=DEFAULT_HIST_BINS, vmax=1`. -/
def get_violation_histogram (v : List ℚ) (nbins : ℕ := DEFAULT_HIST_BINS)
    (vmax : ℚ := 1) : List ℕ × List (Option ℚ) :=
  let over := v.countP (fun x => decide (vmax < x))
  let inner := v.filter (fun x => decide (x ≤ vmax))
  let H := np_histogram_counts inner nbins vmax
  let edges := ((List.range (nbins + 1)).map (fun j => some (edge nbins vmax j))) ++ [none]
  (H ++ [over], edges)

/-- The per-restraint statistics record `task` computes for one monitored
restraint (source lines 222-242): the histogram of the violation ratios via
`get_violation_histogram(vs)` -- the call passes no `nbins`/`vmax`, so the
function's defaults apply -- and
`num_violations = np.count_nonzero(vs > tol)`.  The `.tolist()`ed counts
reappear as rationals in the serialized JSON record. -/
def taskRestraintStat (ratios : List ℚ) (tol : ℚ) (n_imposed : ℚ) : RBucket :=
  { counts := (get_violation_histogram ratios).1.map (fun n : ℕ => (n : ℚ))
    n_violations := (ratios.countP (fun x => decide (tol < x)) : ℚ)
    n_imposed := n_imposed }

/-! ### Typed member records and their JSON encoding

`task` serializes, per member, a JSON object mapping restraint identity
strings to records `{histogram: {edges, counts}, n_violations, n_imposed}`
(source lines 235-244).  `MemberRec` is that shape, typed; `encodeVStat`
renders it as the JSON value `set_structure` parses back. -/

/-- A well-typed member result: member id, coordinates and the
per-restraint statistics record written by `task`. -/
structure MemberRec where
  i : ℕ
  crd : List ℚ
  stats : List (String × RBucket)

/-- JSON encoding of one per-restraint record (source lines 235-242). -/
def encodeRStat (r : RBucket) : J :=
  .obj [("histogram", .obj [("edges", .arr []), ("counts", .arr (r.counts.map .num))]),
        ("n_violations", .num r.n_violations),
        ("n_imposed", .num r.n_imposed)]

/-- JSON encoding of a whole violation-statistics record. -/
def encodeVStat (rs : List (String × RBucket)) : J :=
  .obj (rs.map (fun p => (p.1, encodeRStat p.2)))

/-- The `.hms` content of a member holding a well-formed statistics record
and no optimization info. -/
def mkHms (crd : List ℚ) (rs : List (String × RBucket)) : HmsData :=
  ⟨crd, some (encodeVStat rs), none, none, none, none⟩

/-- The callback argument list corresponding to a list of member records. -/
def encodeRecs (ms : List MemberRec) : List (ℕ × HmsData) :=
  ms.map (fun m => (m.i, mkHms m.crd m.stats))

/-- Total imposed-restraint count of one member's record. -/
def rsImposed (stats : List (String × RBucket)) : ℚ :=
  (stats.map (fun p => p.2.n_imposed)).sum

/-- Total violation count of one member's record. -/
def rsViol (stats : List (String × RBucket)) : ℚ :=
  (stats.map (fun p => p.2.n_violations)).sum

/-- Total histogram count of one member's record. -/
def rsHist (stats : List (String × RBucket)) : ℚ :=
  (stats.map (fun p => p.2.counts.sum)).sum

/-- Sum of imposed-restraint counts over a set of members. -/
def totImposed (ms : List MemberRec) : ℚ :=
  (ms.map (fun m => rsImposed m.stats)).sum

/-- Sum of violation counts over a set of members. -/
def totViol (ms : List MemberRec) : ℚ :=
  (ms.map (fun m => rsViol m.stats)).sum

/-- Sum of the per-member histogram total counts. -/
def totHist (ms : List MemberRec) : ℚ :=
  (ms.map (fun m => rsHist m.stats)).sum

/-- Consistent histogram shape: every per-restraint histogram has
`DEFAULT_HIST_BINS + 1` counts, as `get_violation_histogram` produces. -/
def WFStats (stats : List (String × RBucket)) : Prop :=
  ∀ p ∈ stats, p.2.counts.length = DEFAULT_HIST_BINS + 1

/-- A member record for a population of size `N`: in-range id and
consistent histogram shape. -/
def WFRec (N : ℕ) (m : MemberRec) : Prop :=
  m.i < N ∧ WFStats m.stats

/-- Shape invariant of the running summary for population size `N`. -/
def SummaryInv (N : ℕ) (s : SummaryData) : Prop :=
  s.hist_counts.length = DEFAULT_HIST_BINS + 1 ∧
  (∀ p ∈ s.byrestraint, p.2.counts.length = DEFAULT_HIST_BINS + 1) ∧
  s.bystructure.n_imposed.length = N ∧
  s.bystructure.n_violations.length = N

/-! ### Basic lemmas -/

theorem sum_zipWith_add (a : List ℚ) :
    ∀ b : List ℚ, a.length = b.length →
      (List.zipWith (· + ·) a b).sum = a.sum + b.sum := by
  induction a with
  | nil =>
    intro b h
    have hb : b = [] := List.length_eq_zero.mp h.symm
    subst hb; simp
  | cons x a ih =>
    intro b h
    cases b with
    | nil => simp at h
    | cons y b =>
      simp only [List.zipWith_cons_cons, List.sum_cons, ih b (by simpa using h)]
      ring

theorem npAdd_ok (a b : List ℚ) (h : b.length = a.length) :
    npAdd a b = .ok (List.zipWith (· + ·) a b) := by
  simp [npAdd, h]

theorem toNumListCore_map (l : List ℚ) : toNumListCore (l.map J.num) = .ok l := by
  induction l with
  | nil => rfl
  | cons x l ih =>
    simp only [List.map_cons, toNumListCore]
    rw [ih]
    rfl

theorem pyGetNum_encode_imposed (r : RBucket) :
    pyGetNum (encodeRStat r) "n_imposed" = .ok r.n_imposed := rfl

theorem pyGetNum_encode_viol (r : RBucket) :
    pyGetNum (encodeRStat r) "n_violations" = .ok r.n_violations := rfl

theorem getHistCounts_encode (r : RBucket) :
    getHistCounts (encodeRStat r) = .ok r.counts := by
  have h1 : (encodeRStat r).pySub "histogram"
      = .ok (.obj [("edges", .arr []), ("counts", .arr (r.counts.map .num))]) := rfl
  have h2 : (J.obj [("edges", J.arr []), ("counts", J.arr (r.counts.map J.num))]).pySub "counts"
      = .ok (.arr (r.counts.map .num)) := rfl
  simp [getHistCounts, h1, h2, Except.bind, J.toNumList, toNumListCore_map]

theorem items_encodeVStat (rs : List (String × RBucket)) :
    (encodeVStat rs).items = .ok (rs.map (fun p => (p.1, encodeRStat p.2))) := rfl

theorem lookupAssoc_len (l : List (String × RBucket)) (k : String)
    (h : ∀ p ∈ l, p.2.counts.length = DEFAULT_HIST_BINS + 1) :
    (lookupAssoc l k).counts.length = DEFAULT_HIST_BINS + 1 := by
  unfold lookupAssoc
  cases hf : l.find? (fun p => p.1 == k) with
  | none => simp [emptyBucket]
  | some p =>
    exact h p (List.mem_of_find?_eq_some hf)

theorem updateAssoc_inv (l : List (String × RBucket)) (k : String)
    (f : RBucket → RBucket)
    (hl : ∀ p ∈ l, p.2.counts.length = DEFAULT_HIST_BINS + 1)
    (hf : ∀ b, b.counts.length = DEFAULT_HIST_BINS + 1 →
      (f b).counts.length = DEFAULT_HIST_BINS + 1) :
    ∀ p ∈ updateAssoc l k f, p.2.counts.length = DEFAULT_HIST_BINS + 1 := by
  intro p hp
  simp only [updateAssoc, List.mem_map] at hp
  obtain ⟨q, hq, hpq⟩ := hp
  by_cases hk : q.1 == k
  · simp [hk] at hpq; subst hpq; exact hf q.2 (hl q hq)
  · simp [hk] at hpq; subst hpq; exact hl q hq

theorem rsImposed_cons (k : String) (r : RBucket) (tl : List (String × RBucket)) :
    rsImposed ((k, r) :: tl) = r.n_imposed + rsImposed tl := by simp [rsImposed]

theorem rsViol_cons (k : String) (r : RBucket) (tl : List (String × RBucket)) :
    rsViol ((k, r) :: tl) = r.n_violations + rsViol tl := by simp [rsViol]

theorem rsHist_cons (k : String) (r : RBucket) (tl : List (String × RBucket)) :
    rsHist ((k, r) :: tl) = r.counts.sum + rsHist tl := by simp [rsHist]

/-- Running the statistics loop of `set_structure` over a well-formed
encoded record succeeds and accumulates exactly the record's totals. -/
theorem vstatLoop_encode (rs : List (String × RBucket)) :
    ∀ st : LoopSt, WFStats rs →
      st.hist_tot.length = DEFAULT_HIST_BINS + 1 →
      (∀ p ∈ st.byr, p.2.counts.length = DEFAULT_HIST_BINS + 1) →
      ∃ st', vstatLoop (rs.map (fun p => (p.1, encodeRStat p.2))) st = (st', none) ∧
        st'.n_tot = st.n_tot + rsImposed rs ∧
        st'.n_vio = st.n_vio + rsViol rs ∧
        st'.hist_tot.sum = st.hist_tot.sum + rsHist rs ∧
        st'.hist_tot.length = DEFAULT_HIST_BINS + 1 ∧
        (∀ p ∈ st'.byr, p.2.counts.length = DEFAULT_HIST_BINS + 1) := by
  induction rs with
  | nil =>
    intro st _ h1 h2
    exact ⟨st, rfl, by simp [rsImposed], by simp [rsViol], by simp [rsHist], h1, h2⟩
  | cons hd tl ih =>
    intro st hwf hlen hbyr
    obtain ⟨k, r⟩ := hd
    have hr : r.counts.length = DEFAULT_HIST_BINS + 1 := hwf (k, r) (List.mem_cons_self _ _)
    have htl : WFStats tl := fun p hp => hwf p (List.mem_cons_of_mem _ hp)
    set byr1 := (if (st.byr.find? (fun p => p.1 == k)).isSome then st.byr
      else st.byr ++ [(k, emptyBucket)]) with hbyr1_def
    have hbyr1 : ∀ p ∈ byr1, p.2.counts.length = DEFAULT_HIST_BINS + 1 := by
      rw [hbyr1_def]
      split
      · exact hbyr
      · intro p hp
        rcases List.mem_append.mp hp with h | h
        · exact hbyr p h
        · simp only [List.mem_singleton] at h
          subst h; simp [emptyBucket]
    have hlook : (lookupAssoc byr1 k).counts.length = DEFAULT_HIST_BINS + 1 :=
      lookupAssoc_len _ _ hbyr1
    have hnp1 : npAdd st.hist_tot r.counts
        = .ok (List.zipWith (· + ·) st.hist_tot r.counts) :=
      npAdd_ok _ _ (by rw [hr, hlen])
    have hnp2 : npAdd (lookupAssoc byr1 k).counts r.counts
        = .ok (List.zipWith (· + ·) (lookupAssoc byr1 k).counts r.counts) :=
      npAdd_ok _ _ (by rw [hr, hlook])
    have step : vstatLoop (((k, r) :: tl).map (fun p => (p.1, encodeRStat p.2))) st
        = vstatLoop (tl.map (fun p => (p.1, encodeRStat p.2)))
            { byr := updateAssoc byr1 k (fun b =>
                { counts := List.zipWith (· + ·) (lookupAssoc byr1 k).counts r.counts
                  n_violations := b.n_violations + r.n_violations
                  n_imposed := b.n_imposed + r.n_imposed })
              n_tot := st.n_tot + r.n_imposed
              n_vio := st.n_vio + r.n_violations
              hist_tot := List.zipWith (· + ·) st.hist_tot r.counts } := by
      simp only [List.map_cons, vstatLoop, pyGetNum_encode_imposed, pyGetNum_encode_viol,
        getHistCounts_encode, hnp1, hnp2, ← hbyr1_def]
    obtain ⟨st', hrun, ht, hv, hs, hl, hb⟩ :=
      ih { byr := updateAssoc byr1 k (fun b =>
              { counts := List.zipWith (· + ·) (lookupAssoc byr1 k).counts r.counts
                n_violations := b.n_violations + r.n_violations
                n_imposed := b.n_imposed + r.n_imposed })
           n_tot := st.n_tot + r.n_imposed
           n_vio := st.n_vio + r.n_violations
           hist_tot := List.zipWith (· + ·) st.hist_tot r.counts }
        htl
        (by simp [List.length_zipWith, hlen, hr])
        (by
          show ∀ p ∈ updateAssoc byr1 k (fun b =>
              { counts := List.zipWith (· + ·) (lookupAssoc byr1 k).counts r.counts
                n_violations := b.n_violations + r.n_violations
                n_imposed := b.n_imposed + r.n_imposed }),
            p.2.counts.length = DEFAULT_HIST_BINS + 1
          exact updateAssoc_inv _ _ _ hbyr1 (fun b _ => by
            simp [List.length_zipWith, hlook, hr]))
    refine ⟨st', by rw [step]; exact hrun, ?_, ?_, ?_, hl, hb⟩
    · rw [ht, rsImposed_cons]; ring
    · rw [hv, rsViol_cons]; ring
    · rw [hs, sum_zipWith_add st.hist_tot r.counts (hlen.trans hr.symm), rsHist_cons]
      ring

/-- `aggregateStats` on a well-formed encoded record succeeds and adds the
record's totals to the global counters, preserving the summary shape. -/
theorem aggregateStats_encode (i : ℕ) (crd : List ℚ) (rs : List (String × RBucket))
    (nstruct : ℕ) (N : ℕ) (s : SummaryData) (hinv : SummaryInv N s) (hi : i < N)
    (hwf : WFStats rs) :
    ∃ s', aggregateStats i (mkHms crd rs) nstruct s = (s', none) ∧
      s'.n_imposed = s.n_imposed + rsImposed rs ∧
      s'.n_violations = s.n_violations + rsViol rs ∧
      s'.hist_counts.sum = s.hist_counts.sum + rsHist rs ∧
      s'.hist_edges = s.hist_edges ∧
      SummaryInv N s' := by
  have hlen := hinv.1
  have hbyr := hinv.2.1
  have hbn1 := hinv.2.2.1
  have hbn2 := hinv.2.2.2
  obtain ⟨st', hrun, ht, hv, hs, hl, hb⟩ :=
    vstatLoop_encode rs ⟨s.byrestraint, 0, 0, List.replicate (DEFAULT_HIST_BINS + 1) 0⟩
      hwf (by simp) hbyr
  have ht' : st'.n_tot = rsImposed rs := by simpa using ht
  have hv' : st'.n_vio = rsViol rs := by simpa using hv
  have hs' : st'.hist_tot.sum = rsHist rs := by simpa using hs
  have hnp : npAdd s.hist_counts st'.hist_tot
      = .ok (List.zipWith (· + ·) s.hist_counts st'.hist_tot) :=
    npAdd_ok _ _ (by rw [hl, hlen])
  simp only [aggregateStats, mkHms, Option.getD_some, items_encodeVStat, hrun, hnp]
  simp [List.length_set, hbn1, hbn2, hi, applyEnergies, SummaryInv]
  refine ⟨ht', hv', ?_, ?_, ?_⟩
  · rw [sum_zipWith_add _ _ (by rw [hlen, hl]), hs']
  · rw [hlen, hl]; exact min_self _
  · exact fun a b hab => hb (a, b) hab

/-- The callback never touches the open/closed state of the store handle:
`set_structure` only writes a coordinate slot and mutates the summary. -/
theorem set_structure_isOpen (i : ℕ) (h : HmsData) (s : SessionState) :
    (set_structure i h s).1.store.isOpen = s.store.isOpen := rfl

theorem set_structure_violation (i : ℕ) (h : HmsData) (s : SessionState) :
    (set_structure i h s).1.store.violation = s.store.violation := rfl

theorem set_structure_store_summary (i : ℕ) (h : HmsData) (s : SessionState) :
    (set_structure i h s).1.store.summary = s.store.summary := rfl

theorem set_structure_nstruct (i : ℕ) (h : HmsData) (s : SessionState) :
    (set_structure i h s).1.store.nstruct = s.store.nstruct := rfl

theorem set_structure_summary_eq (i : ℕ) (h : HmsData) (s : SessionState) :
    (set_structure i h s).1.summary
      = (aggregateStats i h s.store.nstruct s.summary).1 := rfl

theorem set_structure_err (i : ℕ) (h : HmsData) (s : SessionState) :
    (set_structure i h s).2 = (aggregateStats i h s.store.nstruct s.summary).2 := rfl

/-- `set_structure` on a well-formed encoded member record: succeeds, adds
the member's totals to the global counters, and leaves the store handle,
the persisted violation score and the persisted summary untouched. -/
theorem set_structure_encode (i : ℕ) (crd : List ℚ) (rs : List (String × RBucket))
    (N : ℕ) (s : SessionState) (hinv : SummaryInv N s.summary) (hi : i < N)
    (hwf : WFStats rs) :
    ∃ s', set_structure i (mkHms crd rs) s = (s', none) ∧
      s'.summary.n_imposed = s.summary.n_imposed + rsImposed rs ∧
      s'.summary.n_violations = s.summary.n_violations + rsViol rs ∧
      s'.summary.hist_counts.sum = s.summary.hist_counts.sum + rsHist rs ∧
      SummaryInv N s'.summary ∧
      s'.store.isOpen = s.store.isOpen ∧
      s'.store.violation = s.store.violation ∧
      s'.store.summary = s.store.summary ∧
      s'.store.nstruct = s.store.nstruct := by
  obtain ⟨u, hu, h1, h2, h3, _, h5⟩ :=
    aggregateStats_encode i crd rs s.store.nstruct N s.summary hinv hi hwf
  have herr : (set_structure i (mkHms crd rs) s).2 = none := by
    rw [set_structure_err, hu]
  have hsum : (set_structure i (mkHms crd rs) s).1.summary = u := by
    rw [set_structure_summary_eq, hu]
  refine ⟨(set_structure i (mkHms crd rs) s).1, ?_, ?_, ?_, ?_, ?_, rfl, rfl, rfl, rfl⟩
  · rw [← herr]
  · rw [hsum]; exact h1
  · rw [hsum]; exact h2
  · rw [hsum]; exact h3
  · rw [hsum]; exact h5

/-- One poller session's worth of `set_structure` callbacks over any list
of well-formed member records: all succeed, and the global counters end at
the member-wise sums added to their starting values. -/
theorem runCallbacks_encode (ms : List MemberRec) :
    ∀ (N : ℕ) (s : SessionState), SummaryInv N s.summary →
      (∀ m ∈ ms, WFRec N m) →
      ∃ s', runCallbacks (encodeRecs ms) s = (s', none) ∧
        s'.summary.n_imposed = s.summary.n_imposed + totImposed ms ∧
        s'.summary.n_violations = s.summary.n_violations + totViol ms ∧
        s'.summary.hist_counts.sum = s.summary.hist_counts.sum + totHist ms ∧
        SummaryInv N s'.summary ∧
        s'.store.isOpen = s.store.isOpen ∧
        s'.store.violation = s.store.violation ∧
        s'.store.summary = s.store.summary ∧
        s'.store.nstruct = s.store.nstruct := by
  induction ms with
  | nil =>
    intro N s hinv _
    exact ⟨s, rfl, by simp [totImposed], by simp [totViol], by simp [totHist],
      hinv, rfl, rfl, rfl, rfl⟩
  | cons m tl ih =>
    intro N s hinv hwf
    have hm : WFRec N m := hwf m (List.mem_cons_self _ _)
    obtain ⟨s1, hs1, a1, a2, a3, a4, a5, a6, a7, a8⟩ :=
      set_structure_encode m.i m.crd m.stats N s hinv hm.1 hm.2
    obtain ⟨s2, hs2, b1, b2, b3, b4, b5, b6, b7, b8⟩ :=
      ih N s1 a4 (fun p hp => hwf p (List.mem_cons_of_mem _ hp))
    refine ⟨s2, ?_, ?_, ?_, ?_, b4, by rw [b5, a5], by rw [b6, a6],
      by rw [b7, a7], by rw [b8, a8]⟩
    · simp only [encodeRecs, List.map_cons] at hs2 ⊢
      simp only [runCallbacks, hs1]
      exact hs2
    · simp only [b1, a1, totImposed, List.map_cons, List.sum_cons]; ring
    · simp only [b2, a2, totViol, List.map_cons, List.sum_cons]; ring
    · simp only [b3, a3, totHist, List.map_cons, List.sum_cons]; ring

/-- The summary allocated by `setup_poller` satisfies the shape invariant. -/
theorem setup_inv (N : ℕ) (st0 : StoreState) :
    SummaryInv N (setup_poller N st0).summary := by
  refine ⟨?_, ?_, ?_, ?_⟩ <;> simp [setup_poller]

/-- Fully successful teardown in closed form. -/
theorem teardown_ok (s : SessionState) :
    teardown_poller ⟨true, true⟩ s
      = ({ s with store := { s.store with
            violation := some (if s.summary.n_imposed = 0 then 0
              else s.summary.n_violations / s.summary.n_imposed)
            summary := some s.summary
            isOpen := false } }, none) := by
  simp [teardown_poller]

/-- The spec's acceptance scenario record: one restraint `"r"` with
`n_imposed = 10` and the given violation count. -/
def scenarioStats (nv : ℚ) : List (String × RBucket) :=
  [("r", ⟨List.replicate (DEFAULT_HIST_BINS + 1) 0, nv, 10⟩)]

/-- The spec's acceptance scenario: `population_size = 4`, three members
with `n_imposed=10, n_violations=0`, one with `n_imposed=10,
n_violations=2`. -/
def scenarioMembers : List MemberRec :=
  [⟨0, [], scenarioStats 0⟩, ⟨1, [], scenarioStats 0⟩,
   ⟨2, [], scenarioStats 0⟩, ⟨3, [], scenarioStats 2⟩]

/-- A fresh store for the scenario. -/
def scenarioStore : StoreState := ⟨false, 4, [], none, none⟩

theorem scenario_wf : ∀ m ∈ scenarioMembers, WFRec 4 m := by
  unfold WFRec WFStats scenarioMembers scenarioStats
  decide

/-- Claim C1: at poller teardown, the persisted violation score equals
total violations divided by total imposed restraints over the aggregated
summary, and equals 0 when the total imposed count is 0 (the division is
guarded and never raises), for every sequence of aggregated member
records; the full running summary is persisted alongside it and the
session completes without error. -/
theorem C1_violation_score_guarded (N : ℕ) (st0 : StoreState)
    (ms : List MemberRec) (hwf : ∀ m ∈ ms, WFRec N m) :
    (runSession N st0 (encodeRecs ms) ⟨true, true⟩).2 = none ∧
    (runSession N st0 (encodeRecs ms) ⟨true, true⟩).1.store.violation
      = some (if totImposed ms = 0 then 0 else totViol ms / totImposed ms) ∧
    (totImposed ms = 0 →
      (runSession N st0 (encodeRecs ms) ⟨true, true⟩).1.store.violation = some 0) ∧
    (runSession N st0 (encodeRecs ms) ⟨true, true⟩).1.store.violation
      = some (if (runSession N st0 (encodeRecs ms) ⟨true, true⟩).1.summary.n_imposed = 0
          then 0
          else (runSession N st0 (encodeRecs ms) ⟨true, true⟩).1.summary.n_violations
            / (runSession N st0 (encodeRecs ms) ⟨true, true⟩).1.summary.n_imposed) ∧
    (runSession N st0 (encodeRecs ms) ⟨true, true⟩).1.store.summary
      = some (runSession N st0 (encodeRecs ms) ⟨true, true⟩).1.summary := by
  obtain ⟨s', hrun, h1, h2, _, _, _, _, _, _⟩ :=
    runCallbacks_encode ms N (setup_poller N st0) (setup_inv N st0) hwf
  have hni : s'.summary.n_imposed = totImposed ms := by
    simpa [setup_poller] using h1
  have hnv : s'.summary.n_violations = totViol ms := by
    simpa [setup_poller] using h2
  have hts : runSession N st0 (encodeRecs ms) ⟨true, true⟩
      = teardown_poller ⟨true, true⟩ s' := by
    simp only [runSession, hrun]
  rw [hts, teardown_ok]
  refine ⟨rfl, ?_, ?_, ?_, rfl⟩
  · simp [hni, hnv]
  · intro h0; simp [hni, h0]
  · rfl

/-- Closed witness for C1 at the spec scenario inputs. -/
theorem C1_witness :
    (runSession 4 scenarioStore (encodeRecs scenarioMembers) ⟨true, true⟩).1.store.violation
      = some (if totImposed scenarioMembers = 0 then 0
          else totViol scenarioMembers / totImposed scenarioMembers) :=
  (C1_violation_score_guarded 4 scenarioStore scenarioMembers scenario_wf).2.1

/-- Claim C2: for every set of member records with consistent histogram
shapes, after one `set_structure` call per member the aggregate histogram
total equals the sum of the per-member histogram totals, and the global
`n_imposed`/`n_violations` equal the member-wise sums, independently of the
processing order; in the spec scenario (population 4, three members with 10
imposed and 0 violated, one with 10 imposed and 2 violated) the aggregate
is `n_imposed = 40`, `n_violations = 2` and the final violation score is
`0.05`. -/
theorem C2_aggregate_totals :
    (∀ (N : ℕ) (st0 : StoreState) (ms ms' : List MemberRec),
      (∀ m ∈ ms, WFRec N m) → ms.Perm ms' →
      (runCallbacks (encodeRecs ms) (setup_poller N st0)).2 = none ∧
      (runCallbacks (encodeRecs ms) (setup_poller N st0)).1.summary.hist_counts.sum
        = totHist ms ∧
      (runCallbacks (encodeRecs ms) (setup_poller N st0)).1.summary.n_imposed
        = totImposed ms ∧
      (runCallbacks (encodeRecs ms) (setup_poller N st0)).1.summary.n_violations
        = totViol ms ∧
      (runCallbacks (encodeRecs ms') (setup_poller N st0)).1.summary.n_imposed
        = (runCallbacks (encodeRecs ms) (setup_poller N st0)).1.summary.n_imposed ∧
      (runCallbacks (encodeRecs ms') (setup_poller N st0)).1.summary.n_violations
        = (runCallbacks (encodeRecs ms) (setup_poller N st0)).1.summary.n_violations ∧
      (runCallbacks (encodeRecs ms') (setup_poller N st0)).1.summary.hist_counts.sum
        = (runCallbacks (encodeRecs ms) (setup_poller N st0)).1.summary.hist_counts.sum) ∧
    ((runCallbacks (encodeRecs scenarioMembers) (setup_poller 4 scenarioStore)).1.summary.n_imposed
        = 40 ∧
      (runCallbacks (encodeRecs scenarioMembers) (setup_poller 4 scenarioStore)).1.summary.n_violations
        = 2 ∧
      (runSession 4 scenarioStore (encodeRecs scenarioMembers) ⟨true, true⟩).1.store.violation
        = some (0.05 : ℚ)) := by
  have main : ∀ (N : ℕ) (st0 : StoreState) (ms : List MemberRec),
      (∀ m ∈ ms, WFRec N m) →
      (runCallbacks (encodeRecs ms) (setup_poller N st0)).2 = none ∧
      (runCallbacks (encodeRecs ms) (setup_poller N st0)).1.summary.hist_counts.sum
        = totHist ms ∧
      (runCallbacks (encodeRecs ms) (setup_poller N st0)).1.summary.n_imposed
        = totImposed ms ∧
      (runCallbacks (encodeRecs ms) (setup_poller N st0)).1.summary.n_violations
        = totViol ms := by
    intro N st0 ms hwf
    obtain ⟨s', hrun, h1, h2, h3, _, _, _, _, _⟩ :=
      runCallbacks_encode ms N (setup_poller N st0) (setup_inv N st0) hwf
    rw [hrun]
    refine ⟨rfl, ?_, ?_, ?_⟩
    · simpa [setup_poller, List.sum_replicate] using h3
    · simpa [setup_poller] using h1
    · simpa [setup_poller] using h2
  constructor
  · intro N st0 ms ms' hwf hperm
    have hwf' : ∀ m ∈ ms', WFRec N m := fun m hm => hwf m (hperm.symm.subset hm)
    obtain ⟨e1, a1, a2, a3⟩ := main N st0 ms hwf
    obtain ⟨e2, b1, b2, b3⟩ := main N st0 ms' hwf'
    have pi : totImposed ms' = totImposed ms := ((hperm.map _).sum_eq).symm
    have pv : totViol ms' = totViol ms := ((hperm.map _).sum_eq).symm
    have ph : totHist ms' = totHist ms := ((hperm.map _).sum_eq).symm
    exact ⟨e1, a1, a2, a3, by rw [b2, a2, pi], by rw [b3, a3, pv], by rw [b1, a1, ph]⟩
  · obtain ⟨e1, a1, a2, a3⟩ := main 4 scenarioStore scenarioMembers scenario_wf
    have hti : totImposed scenarioMembers = 40 := by
      simp [totImposed, rsImposed, scenarioMembers, scenarioStats]
      norm_num
    have htv : totViol scenarioMembers = 2 := by
      simp [totViol, rsViol, scenarioMembers, scenarioStats]
    obtain ⟨s', hrun, h1, h2, _, _, _, _, _, _⟩ :=
      runCallbacks_encode scenarioMembers 4 (setup_poller 4 scenarioStore)
        (setup_inv 4 scenarioStore) scenario_wf
    have hni : s'.summary.n_imposed = 40 := by
      rw [hti] at h1; simpa [setup_poller] using h1
    have hnv : s'.summary.n_violations = 2 := by
      rw [htv] at h2; simpa [setup_poller] using h2
    have hts : runSession 4 scenarioStore (encodeRecs scenarioMembers) ⟨true, true⟩
        = teardown_poller ⟨true, true⟩ s' := by
      simp only [runSession, hrun]
    refine ⟨by rw [a2, hti], by rw [a3, htv], ?_⟩
    rw [hts, teardown_ok]
    show some (if s'.summary.n_imposed = 0 then 0
        else s'.summary.n_violations / s'.summary.n_imposed) = some (0.05 : ℚ)
    rw [hni, hnv, if_neg (by norm_num : ¬((40 : ℚ) = 0))]
    norm_num

/-- Closed witness for C2 at the spec scenario inputs. -/
theorem C2_witness :
    (runCallbacks (encodeRecs scenarioMembers) (setup_poller 4 scenarioStore)).1.summary.n_imposed
      = totImposed scenarioMembers :=
  (C2_aggregate_totals.1 4 scenarioStore scenarioMembers scenarioMembers
    scenario_wf (List.Perm.refl _)).2.2.1

/-- Claim C5: in a fresh run (no pre-existing marker), the task writes the
result file, reads it back and compares; it raises exactly when the stored
coordinates differ from the in-memory ones, and the completion marker is
created as the final step, only after the verification succeeds -- so no
marker is ever created for a member whose result file failed
verification. -/
theorem C5_verify_before_marker (clean : Bool) (crd readBack : List ℚ)
    (fs : TaskFS) (hm : fs.marker = false) :
    ((task clean crd readBack fs).2.2 = some .runtimeError ↔ readBack ≠ crd) ∧
    ((task clean crd readBack fs).1.marker = true ↔ readBack = crd) ∧
    (readBack = crd →
      (task clean crd readBack fs).2.1 = [.writeResult crd, .createMarker]) ∧
    (readBack ≠ crd →
      (task clean crd readBack fs).2.1 = [.writeResult crd] ∧
      (task clean crd readBack fs).1.marker = false) := by
  by_cases h : readBack = crd <;> simp [task, hm, h]

/-- Closed witness for C5: a successful run creates the marker last. -/
theorem C5_witness :
    (task false [(1 : ℚ)] [(1 : ℚ)] ⟨none, false⟩).2.1
      = [.writeResult [(1 : ℚ)], .createMarker] :=
  (C5_verify_before_marker false [(1 : ℚ)] [(1 : ℚ)] ⟨none, false⟩ rfl).2.2.1 rfl

/-- Claim C6: if the member's completion marker exists and the
clean-restart flag is not set, `task` is a no-op: no effects, no error, and
the per-member files are returned unchanged (re-running is idempotent; the
model of `task` contains no shared-store access at all, matching the
source, whose `task` only reads the store as input). -/
theorem C6_marker_skip_idempotent (crd readBack : List ℚ) (fs : TaskFS)
    (hm : fs.marker = true) :
    task false crd readBack fs = (fs, [], none) := by
  simp [task, hm]

/-- Closed witness for C6. -/
theorem C6_witness :
    task false [(2 : ℚ)] [(3 : ℚ)] ⟨some [(5 : ℚ)], true⟩
      = (⟨some [(5 : ℚ)], true⟩, [], none) :=
  C6_marker_skip_idempotent [(2 : ℚ)] [(3 : ℚ)] ⟨some [(5 : ℚ)], true⟩ rfl

/-- Claim C8: a non-zero exit of the `h5repack` subprocess makes `reduce`
raise and leaves both the original store and the final output path exactly
as they were; the final output is only ever replaced after exit code 0, and
then with the repacked content. -/
theorem C8_repack_atomic (repacked : ℕ) (rc : ℤ) (keep : Bool) (fs : ReduceFS) :
    (rc ≠ 0 →
      (reduce repacked rc keep fs).2 = some .runtimeError ∧
      (reduce repacked rc keep fs).1.origStore = fs.origStore ∧
      (reduce repacked rc keep fs).1.finalOutput = fs.finalOutput) ∧
    (reduce repacked rc keep fs).1.origStore = fs.origStore ∧
    ((reduce repacked rc keep fs).1.finalOutput ≠ fs.finalOutput → rc = 0) ∧
    (rc = 0 →
      (reduce repacked rc keep fs).2 = none ∧
      (reduce repacked rc keep fs).1.finalOutput = some repacked) := by
  by_cases h : rc = 0 <;> cases keep <;> simp [reduce, h]

/-- Closed witness for C8: exit code 1 aborts and preserves the store. -/
theorem C8_witness :
    (reduce 7 1 false ⟨3, none, none, none⟩).2 = some .runtimeError ∧
    (reduce 7 1 false ⟨3, none, none, none⟩).1.origStore = 3 ∧
    (reduce 7 1 false ⟨3, none, none, none⟩).1.finalOutput = none :=
  (C8_repack_atomic 7 1 false ⟨3, none, none, none⟩).1 (by decide)

/-- Claim C9 counterexample: the claim says the store handle opened in
`setup_poller` is closed on every exit path of the session; but when the
summary write inside `teardown_poller` raises, the handle stays open
(there is no try/finally around the teardown body). -/
theorem C9_counterexample :
    (teardown_poller ⟨true, false⟩ (setup_poller 2 scenarioStore)).2 = some .osError ∧
    (teardown_poller ⟨true, false⟩ (setup_poller 2 scenarioStore)).1.store.isOpen = true := by
  constructor <;> rfl

/-- Claim C9 amended: the handle is closed exactly on the success path of
`teardown_poller` (its final statement); if a teardown write raises, the
open/closed state is left as it was (open, for a session started by
`setup_poller`), and `set_structure` callbacks never touch the handle
state at all, whether they succeed or raise. -/
theorem C9_handle_close_on_success_only :
    (∀ (ext : ExtWrites) (s : SessionState),
      ((teardown_poller ext s).2 = none →
        (teardown_poller ext s).1.store.isOpen = false) ∧
      ((teardown_poller ext s).2 ≠ none →
        (teardown_poller ext s).1.store.isOpen = s.store.isOpen)) ∧
    (∀ (i : ℕ) (h : HmsData) (s : SessionState),
      (set_structure i h s).1.store.isOpen = s.store.isOpen) := by
  constructor
  · rintro ⟨sv, ws⟩ s
    cases sv <;> cases ws <;> simp [teardown_poller]
  · exact set_structure_isOpen

/-- Closed witness for C9 (amended): a fully successful teardown closes the
handle. -/
theorem C9_witness :
    (teardown_poller ⟨true, true⟩ (setup_poller 2 scenarioStore)).1.store.isOpen = false :=
  (C9_handle_close_on_success_only.1 ⟨true, true⟩ (setup_poller 2 scenarioStore)).1 rfl

theorem zipWith_add_replicate_zero (a : List ℚ) :
    ∀ n : ℕ, a.length = n → List.zipWith (· + ·) a (List.replicate n 0) = a := by
  induction a with
  | nil => intro n _; simp
  | cons x a ih =>
    intro n h
    cases n with
    | zero => simp at h
    | succ m =>
      simp only [List.replicate_succ, List.zipWith_cons_cons, add_zero]
      rw [ih m (by simpa using h)]

/-- Claim C7 counterexample: a violation-statistics record that is valid
JSON but not of the record shape (here `{"envelope": 42}`, so the
per-restraint entry is a number, not a dict) makes `set_structure` raise:
`cstat.get('n_imposed', 0)` on the number raises `AttributeError`, which
nothing catches (the bare `except:` only wraps the `json.loads` at source
lines 295-298).  So "an absent or corrupt record never makes
`set_structure` fail" is false as stated. -/
theorem C7_counterexample :
    (set_structure 0 ⟨[], some (.obj [("envelope", .num 42)]), none, none, none, none⟩
        (setup_poller 4 scenarioStore)).2 = some .attrError := rfl

/-- Claim C7 amended: a violation-statistics record that is absent or
fails to parse (the bare `except:` turns it into the empty record) never
makes `set_structure` fail: aggregation proceeds and the running summary's
global counters -- `n_imposed`, `n_violations`, the global histogram and
the per-restraint buckets -- are left unchanged for that member.  (A record
that parses to JSON of an unexpected shape, by contrast, raises, as the
counterexample shows.) -/
theorem C7_absent_stats_graceful (i : ℕ) (crd : List ℚ) (N : ℕ)
    (s : SessionState) (hinv : SummaryInv N s.summary) (hi : i < N) :
    (set_structure i ⟨crd, none, none, none, none, none⟩ s).2 = none ∧
    (set_structure i ⟨crd, none, none, none, none, none⟩ s).1.summary.n_imposed
      = s.summary.n_imposed ∧
    (set_structure i ⟨crd, none, none, none, none, none⟩ s).1.summary.n_violations
      = s.summary.n_violations ∧
    (set_structure i ⟨crd, none, none, none, none, none⟩ s).1.summary.hist_counts
      = s.summary.hist_counts ∧
    (set_structure i ⟨crd, none, none, none, none, none⟩ s).1.summary.byrestraint
      = s.summary.byrestraint := by
  have hnp : npAdd s.summary.hist_counts (List.replicate (DEFAULT_HIST_BINS + 1) 0)
      = .ok s.summary.hist_counts := by
    rw [npAdd_ok _ _ (by rw [List.length_replicate, hinv.1]),
      zipWith_add_replicate_zero _ _ hinv.1]
  have hagg : aggregateStats i ⟨crd, none, none, none, none, none⟩ s.store.nstruct s.summary
      = ({ s.summary with
            bystructure := { s.summary.bystructure with
              n_imposed := s.summary.bystructure.n_imposed.set i 0
              n_violations := s.summary.bystructure.n_violations.set i 0 } }, none) := by
    simp [aggregateStats, J.items, vstatLoop, hnp, applyEnergies,
      List.length_set, hinv.2.2.1, hinv.2.2.2, hi]
  refine ⟨?_, ?_, ?_, ?_, ?_⟩ <;>
    simp [set_structure_err, set_structure_summary_eq, hagg]

/-- Closed witness for C7 (amended): an absent record leaves the global
counters of a freshly set-up summary unchanged. -/
theorem C7_witness :
    (set_structure 0 ⟨[], none, none, none, none, none⟩ (setup_poller 4 scenarioStore)).2
        = none ∧
    (set_structure 0 ⟨[], none, none, none, none, none⟩
        (setup_poller 4 scenarioStore)).1.summary.n_imposed
      = (setup_poller 4 scenarioStore).summary.n_imposed :=
  ⟨(C7_absent_stats_graceful 0 [] 4 (setup_poller 4 scenarioStore)
      (setup_inv 4 scenarioStore) (by decide)).1,
   (C7_absent_stats_graceful 0 [] 4 (setup_poller 4 scenarioStore)
      (setup_inv 4 scenarioStore) (by decide)).2.1⟩

theorem pollScan_step (a : ℕ) (e p c : List ℕ) :
    pollScan (a :: e) p c
      = pollScan e p (if a ∈ p ∧ a ∉ c then c ++ [a] else c) := rfl

theorem pollScan_nodup (e p : List ℕ) :
    ∀ c : List ℕ, c.Nodup → (pollScan e p c).Nodup := by
  induction e with
  | nil => intro c h; exact h
  | cons a e ih =>
    intro c h
    rw [pollScan_step]
    apply ih
    split
    · rename_i hc
      rw [List.nodup_append]
      refine ⟨h, List.nodup_singleton a, ?_⟩
      intro x hx hxa
      simp only [List.mem_singleton] at hxa
      subst hxa
      exact hc.2 hx
    · exact h

theorem pollScan_mem (e p : List ℕ) :
    ∀ c x, x ∈ pollScan e p c → x ∈ c ∨ x ∈ e := by
  induction e with
  | nil => intro c x h; exact Or.inl h
  | cons a e ih =>
    intro c x h
    rw [pollScan_step] at h
    rcases ih _ x h with h1 | h2
    · split at h1
      · rcases List.mem_append.mp h1 with h3 | h3
        · exact Or.inl h3
        · simp only [List.mem_singleton] at h3
          subst h3
          exact Or.inr (List.mem_cons_self _ _)
      · exact Or.inl h1
    · exact Or.inr (List.mem_cons_of_mem _ h2)

theorem pollScan_mono (e p : List ℕ) : ∀ c, c ⊆ pollScan e p c := by
  induction e with
  | nil => intro c x h; exact h
  | cons a e ih =>
    intro c x hx
    rw [pollScan_step]
    refine ih _ ?_
    split
    · exact List.mem_append_left _ hx
    · exact hx

theorem pollScan_covers (e p : List ℕ) :
    ∀ c i, i ∈ e → i ∈ p → i ∈ pollScan e p c := by
  induction e with
  | nil => intro c i h; cases h
  | cons a e ih =>
    intro c i he hp
    rw [pollScan_step]
    rcases List.mem_cons.mp he with rfl | he'
    · apply pollScan_mono
      split
      · exact List.mem_append_right _ (List.mem_singleton_self _)
      · rename_i hcond
        by_cases hic : i ∈ c
        · exact hic
        · exact absurd ⟨hp, hic⟩ hcond
    · exact ih _ i he' hp

theorem pollRun_go_nodup (e : List ℕ) (scans : List (List ℕ)) :
    ∀ c, c.Nodup →
      (scans.foldl (fun c present => pollScan e present c) c).Nodup := by
  induction scans with
  | nil => intro c h; exact h
  | cons s scans ih => intro c h; exact ih _ (pollScan_nodup e s c h)

theorem pollRun_go_mem (e : List ℕ) (scans : List (List ℕ)) :
    ∀ c x, x ∈ scans.foldl (fun c present => pollScan e present c) c →
      x ∈ c ∨ x ∈ e := by
  induction scans with
  | nil => intro c x h; exact Or.inl h
  | cons s scans ih =>
    intro c x h
    rcases ih _ x h with h1 | h2
    · exact pollScan_mem e s c x h1
    · exact Or.inr h2

theorem pollRun_go_mono (e : List ℕ) (scans : List (List ℕ)) :
    ∀ c, c ⊆ scans.foldl (fun c present => pollScan e present c) c := by
  induction scans with
  | nil => intro c x h; exact h
  | cons s scans ih =>
    intro c
    exact List.Subset.trans (pollScan_mono e s c) (ih _)

theorem pollRun_go_covers (e : List ℕ) (scans : List (List ℕ)) :
    ∀ c i, i ∈ e → (∃ s ∈ scans, i ∈ s) →
      i ∈ scans.foldl (fun c present => pollScan e present c) c := by
  induction scans with
  | nil =>
    intro c i _ h
    simp only [List.not_mem_nil, false_and, exists_false] at h
  | cons s scans ih =>
    intro c i he hex
    obtain ⟨s', hs', his'⟩ := hex
    rcases List.mem_cons.mp hs' with rfl | hmem
    · exact pollRun_go_mono e scans _ (pollScan_covers e s' c i he his')
    · exact ih _ i he ⟨s', hmem, his'⟩

/-- Claim C3: over any sequence of scans, the poller invokes its callback
only for ids in the expected set `[0, population_size)`, never more than
once per id, and exactly once for every expected id whose marker is
present during some scan (including markers already present at the first
scan). -/
theorem C3_poller_exactly_once (N : ℕ) (scans : List (List ℕ)) :
    (∀ i ∈ pollRun (List.range N) scans, i < N) ∧
    (∀ i : ℕ, (pollRun (List.range N) scans).count i ≤ 1) ∧
    (∀ i : ℕ, i < N → (∃ s ∈ scans, i ∈ s) →
      (pollRun (List.range N) scans).count i = 1) := by
  have hnd : (pollRun (List.range N) scans).Nodup :=
    pollRun_go_nodup _ scans [] List.nodup_nil
  refine ⟨?_, ?_, ?_⟩
  · intro i hi
    rcases pollRun_go_mem _ scans [] i hi with h | h
    · cases h
    · exact List.mem_range.mp h
  · exact fun i => List.nodup_iff_count_le_one.mp hnd i
  · intro i hiN hex
    have hmem : i ∈ pollRun (List.range N) scans :=
      pollRun_go_covers _ scans [] i (List.mem_range.mpr hiN) hex
    have h1 : 1 ≤ (pollRun (List.range N) scans).count i :=
      List.count_pos_iff.mpr hmem
    exact Nat.le_antisymm (List.nodup_iff_count_le_one.mp hnd i) h1

/-- Closed witness for C3: two scans, first marker out of order, one
foreign id ignored. -/
theorem C3_witness :
    (pollRun (List.range 3) [[2], [1, 5], [0, 2]]).count 1 = 1 :=
  (C3_poller_exactly_once 3 [[2], [1, 5], [0, 2]]).2.2 1 (by decide)
    ⟨[1, 5], by decide, by decide⟩

theorem countP_merge (p q r : ℚ → Bool) (xs : List ℚ)
    (h : ∀ x ∈ xs, (r x = true ↔ (p x = true ∨ q x = true)) ∧
      ¬(p x = true ∧ q x = true)) :
    xs.countP p + xs.countP q = xs.countP r := by
  induction xs with
  | nil => simp
  | cons x xs ih =>
    have hx := h x (List.mem_cons_self _ _)
    have htl := ih (fun y hy => h y (List.mem_cons_of_mem _ hy))
    simp only [List.countP_cons]
    cases hp : p x <;> cases hq : q x
    · have hr : r x = false := by
        cases hzr : r x
        · rfl
        · rcases hx.1.mp hzr with hc | hc
          · rw [hp] at hc; simp at hc
          · rw [hq] at hc; simp at hc
      simp only [hp, hq, hr, if_neg, Bool.false_eq_true, if_false, add_zero]
      omega
    · have hr : r x = true := hx.1.mpr (Or.inr hq)
      simp only [hp, hq, hr, Bool.false_eq_true, if_false, if_true, add_zero]
      omega
    · have hr : r x = true := hx.1.mpr (Or.inl hp)
      simp only [hp, hq, hr, Bool.false_eq_true, if_false, if_true, add_zero]
      omega
    · exact absurd ⟨hp, hq⟩ hx.2

theorem edge_zero (n : ℕ) (vmax : ℚ) : edge n vmax 0 = 0 := by simp [edge]

theorem edge_le_edge (n : ℕ) (vmax : ℚ) (hn : 0 < n) (hv : 0 < vmax)
    {j k : ℕ} (h : j ≤ k) : edge n vmax j ≤ edge n vmax k := by
  unfold edge
  have hc : (0 : ℚ) < (n : ℚ) := by exact_mod_cast hn
  rw [div_le_div_iff_of_pos_right hc]
  exact mul_le_mul_of_nonneg_right (by exact_mod_cast h) hv.le

theorem edge_n_eq (n : ℕ) (vmax : ℚ) (hn : 0 < n) : edge n vmax n = vmax := by
  unfold edge
  have hne : (n : ℚ) ≠ 0 := by exact_mod_cast hn.ne'
  rw [mul_comm]
  exact mul_div_cancel_right₀ vmax hne

theorem inBin_iff (n : ℕ) (vmax : ℚ) (j : ℕ) (x : ℚ) :
    inBin n vmax j x = true ↔
      (edge n vmax j ≤ x ∧
        (if j + 1 = n then x ≤ vmax else x < edge n vmax (j + 1))) := by
  unfold inBin
  by_cases h : j + 1 = n <;> simp [h]

theorem interior_upto (n : ℕ) (vmax : ℚ) (hn : 0 < n) (hv : 0 < vmax)
    (xs : List ℚ) (hxs : ∀ x ∈ xs, 0 ≤ x) :
    ∀ m, m < n →
      ((List.range m).map (fun j => xs.countP (inBin n vmax j))).sum
        = xs.countP (fun x => decide (x < edge n vmax m)) := by
  intro m
  induction m with
  | zero =>
    intro _
    simp only [List.range_zero, List.map_nil, List.sum_nil]
    symm
    rw [List.countP_eq_zero]
    intro x hx
    simp only [edge_zero, decide_eq_true_eq]
    exact not_lt.2 (hxs x hx)
  | succ m ih =>
    intro hm
    have hm' : m < n := Nat.lt_of_succ_lt hm
    have hmn : m + 1 ≠ n := Nat.ne_of_lt hm
    rw [List.range_succ, List.map_append, List.sum_append]
    simp only [List.map_cons, List.map_nil, List.sum_cons, List.sum_nil, add_zero]
    rw [ih hm']
    refine countP_merge _ _ _ xs ?_
    intro x _
    refine ⟨⟨?_, ?_⟩, ?_⟩
    · intro hr
      rw [decide_eq_true_eq] at hr
      by_cases hxm : x < edge n vmax m
      · exact Or.inl (by simpa using hxm)
      · right
        rw [inBin_iff]
        exact ⟨not_lt.mp hxm, by rw [if_neg hmn]; exact hr⟩
    · intro hpq
      rw [decide_eq_true_eq]
      rcases hpq with hp | hq
      · rw [decide_eq_true_eq] at hp
        exact lt_of_lt_of_le hp (edge_le_edge n vmax hn hv (Nat.le_succ m))
      · rw [inBin_iff, if_neg hmn] at hq
        exact hq.2
    · rintro ⟨hp, hq⟩
      rw [decide_eq_true_eq] at hp
      rw [inBin_iff] at hq
      exact absurd hp (not_lt.2 hq.1)

theorem interior_sum (n : ℕ) (vmax : ℚ) (hn : 0 < n) (hv : 0 < vmax)
    (xs : List ℚ) (hxs : ∀ x ∈ xs, 0 ≤ x) :
    ((List.range n).map (fun j => xs.countP (inBin n vmax j))).sum
      = xs.countP (fun x => decide (x ≤ vmax)) := by
  obtain ⟨m, rfl⟩ : ∃ m, n = m + 1 := ⟨n - 1, (Nat.succ_pred_eq_of_pos hn).symm⟩
  rw [List.range_succ, List.map_append, List.sum_append]
  simp only [List.map_cons, List.map_nil, List.sum_cons, List.sum_nil, add_zero]
  rw [interior_upto (m + 1) vmax hn hv xs hxs m (Nat.lt_succ_self m)]
  refine countP_merge _ _ _ xs ?_
  intro x _
  have hedge : edge (m + 1) vmax m ≤ vmax := by
    calc edge (m + 1) vmax m ≤ edge (m + 1) vmax (m + 1) :=
          edge_le_edge _ _ hn hv (Nat.le_succ m)
    _ = vmax := edge_n_eq _ _ hn
  refine ⟨⟨?_, ?_⟩, ?_⟩
  · intro hr
    rw [decide_eq_true_eq] at hr
    by_cases hxm : x < edge (m + 1) vmax m
    · exact Or.inl (by simpa using hxm)
    · right
      rw [inBin_iff]
      exact ⟨not_lt.mp hxm, by rw [if_pos rfl]; exact hr⟩
  · intro hpq
    rw [decide_eq_true_eq]
    rcases hpq with hp | hq
    · rw [decide_eq_true_eq] at hp
      exact le_of_lt (lt_of_lt_of_le hp hedge)
    · rw [inBin_iff, if_pos rfl] at hq
      exact hq.2
  · rintro ⟨hp, hq⟩
    rw [decide_eq_true_eq] at hp
    rw [inBin_iff] at hq
    exact absurd hp (not_lt.2 hq.1)

theorem gvh_fst (v : List ℚ) (nbins : ℕ) (vmax : ℚ) :
    (get_violation_histogram v nbins vmax).1
      = np_histogram_counts (v.filter (fun x => decide (x ≤ vmax))) nbins vmax
        ++ [v.countP (fun x => decide (vmax < x))] := rfl

theorem np_histogram_counts_length (xs : List ℚ) (nbins : ℕ) (vmax : ℚ) :
    (np_histogram_counts xs nbins vmax).length = nbins := by
  simp [np_histogram_counts]

theorem gvh_take_sum (v : List ℚ) (nbins : ℕ) (vmax : ℚ) (hn : 0 < nbins)
    (hv : 0 < vmax) (hpos : ∀ x ∈ v, 0 ≤ x) :
    ((get_violation_histogram v nbins vmax).1.take nbins).sum
      = (v.filter (fun x => decide (x ≤ vmax))).length := by
  rw [gvh_fst,
    List.take_left' (np_histogram_counts_length
      (v.filter (fun x => decide (x ≤ vmax))) nbins vmax),
    np_histogram_counts,
    interior_sum nbins vmax hn hv _ (fun x hx => hpos x (List.mem_of_mem_filter hx)),
    List.countP_eq_length]
  intro a ha
  exact (List.mem_filter.mp ha).2

/-- Claim C10: for every list of nonnegative violation ratios,
`get_violation_histogram` returns `nbins + 1` counts whose total is the
number of input ratios; a ratio equal to `vmax` is counted in the interior
bins (the interior total counts exactly the ratios `≤ vmax`), and the
overflow bin counts exactly the ratios strictly greater than `vmax` --
nothing is dropped or double-counted. -/
theorem C10_histogram_conservation (v : List ℚ) (nbins : ℕ) (vmax : ℚ)
    (hn : 0 < nbins) (hv : 0 < vmax) (hpos : ∀ x ∈ v, 0 ≤ x) :
    (get_violation_histogram v nbins vmax).1.length = nbins + 1 ∧
    ((get_violation_histogram v nbins vmax).1.take nbins).sum
      = (v.filter (fun x => decide (x ≤ vmax))).length ∧
    (get_violation_histogram v nbins vmax).1.getLast?
      = some ((v.filter (fun x => decide (vmax < x))).length) ∧
    (get_violation_histogram v nbins vmax).1.sum = v.length := by
  refine ⟨?_, gvh_take_sum v nbins vmax hn hv hpos, ?_, ?_⟩
  · rw [gvh_fst]
    simp [np_histogram_counts]
  · rw [gvh_fst, List.getLast?_concat, List.countP_eq_length_filter]
  · have hH : (np_histogram_counts (v.filter (fun x => decide (x ≤ vmax))) nbins vmax).sum
        = (v.filter (fun x => decide (x ≤ vmax))).length := by
      have h := gvh_take_sum v nbins vmax hn hv hpos
      rwa [gvh_fst,
        List.take_left' (np_histogram_counts_length
          (v.filter (fun x => decide (x ≤ vmax))) nbins vmax)] at h
    rw [gvh_fst, List.sum_append]
    simp only [List.sum_cons, List.sum_nil, add_zero]
    rw [hH, ← List.countP_eq_length_filter]
    have hm := countP_merge (fun x => decide (x ≤ vmax)) (fun x => decide (vmax < x))
      (fun _ => true) v ?_
    · rw [List.countP_true] at hm
      exact hm
    · intro x _
      refine ⟨?_, ?_⟩
      · simp only [decide_eq_true_eq, true_iff]
        exact le_or_lt x vmax
      · rintro ⟨hp, hq⟩
        rw [decide_eq_true_eq] at hp hq
        exact absurd hq (not_lt.2 hp)

/-- Closed witness for C10 at a small concrete input containing a ratio
equal to `vmax` and one beyond it. -/
theorem C10_witness :
    (get_violation_histogram [(0 : ℚ), 1 / 2, 1, 3 / 2] 4 1).1.length = 4 + 1 ∧
    ((get_violation_histogram [(0 : ℚ), 1 / 2, 1, 3 / 2] 4 1).1.take 4).sum
      = (([(0 : ℚ), 1 / 2, 1, 3 / 2]).filter (fun x => decide (x ≤ 1))).length ∧
    (get_violation_histogram [(0 : ℚ), 1 / 2, 1, 3 / 2] 4 1).1.getLast?
      = some ((([(0 : ℚ), 1 / 2, 1, 3 / 2]).filter (fun x => decide ((1 : ℚ) < x))).length) ∧
    (get_violation_histogram [(0 : ℚ), 1 / 2, 1, 3 / 2] 4 1).1.sum
      = ([(0 : ℚ), 1 / 2, 1, 3 / 2]).length :=
  C10_histogram_conservation [(0 : ℚ), 1 / 2, 1, 3 / 2] 4 1 (by norm_num) (by norm_num)
    (by intro x hx; simp at hx; rcases hx with rfl | rfl | rfl | rfl <;> norm_num)

/-- Claim C4 evaluation at the failing input: the per-task histogram
computed by `task` via `get_violation_histogram(vs)` uses the default
`vmax = 1`, not `DEFAULT_HIST_MAX`.  The ratio `1/2` exceeds
`DEFAULT_HIST_MAX = 0.1`, yet the overflow bin of the task's histogram is
empty and the ratio lands in the interior; with the claimed range
`[0, DEFAULT_HIST_MAX)` it would sit in the overflow bin.  Meanwhile the
aggregate summary's own edge labels (built in `setup_poller`) end the
interior at `DEFAULT_HIST_MAX`, so the persisted counts disagree with the
persisted edges. -/
theorem C4_hist_range_divergence :
    DEFAULT_HIST_MAX < (1 : ℚ) / 2 ∧
    (1 : ℚ) / 2 ≤ 1 ∧
    (get_violation_histogram [(1 : ℚ) / 2]).1.getLast? = some 0 ∧
    ((get_violation_histogram [(1 : ℚ) / 2]).1.take DEFAULT_HIST_BINS).sum = 1 ∧
    (get_violation_histogram [(1 : ℚ) / 2] DEFAULT_HIST_BINS DEFAULT_HIST_MAX).1.getLast?
      = some 1 ∧
    (taskRestraintStat [(1 : ℚ) / 2] (1 / 100) 1).counts
      = (get_violation_histogram [(1 : ℚ) / 2]).1.map (fun n : ℕ => (n : ℚ)) ∧
    (setup_poller 4 scenarioStore).summary.hist_edges[DEFAULT_HIST_BINS]?
      = some (some DEFAULT_HIST_MAX) := by
  refine ⟨by norm_num [DEFAULT_HIST_MAX], by norm_num, ?_, ?_, ?_, rfl, ?_⟩
  · rw [gvh_fst, List.getLast?_concat]
    norm_num [List.countP_cons, List.countP_nil]
  · rw [gvh_take_sum [(1 : ℚ) / 2] DEFAULT_HIST_BINS 1
      (by norm_num [DEFAULT_HIST_BINS]) (by norm_num) (by intro x hx; simp at hx; subst hx; norm_num)]
    simp only [List.filter_cons, List.filter_nil]
    norm_num
  · rw [gvh_fst, List.getLast?_concat]
    norm_num [List.countP_cons, List.countP_nil, DEFAULT_HIST_MAX]
  · show (((List.range DEFAULT_HIST_BINS).map
        (fun j : ℕ => some ((j : ℚ) * (DEFAULT_HIST_MAX / (DEFAULT_HIST_BINS : ℚ)))))
        ++ [some DEFAULT_HIST_MAX, none])[DEFAULT_HIST_BINS]?
      = some (some DEFAULT_HIST_MAX)
    have hlen : ((List.range DEFAULT_HIST_BINS).map
        (fun j : ℕ => some ((j : ℚ) * (DEFAULT_HIST_MAX / (DEFAULT_HIST_BINS : ℚ))))).length
        = DEFAULT_HIST_BINS := by
      rw [List.length_map, List.length_range]
    rw [List.getElem?_append_right hlen.le, hlen]
    simp

end IGM
